import Mathlib

/-!
# Verification of the zwig post/vote store

A shallow embedding of the repository's store layer and proofs about it.

The repository contains two store variants:

* `models.JSONDatabase` (the JSON-file store): an in-memory slice of posts
  and a slice of votes, with derived reads (`Get`, `CountVotes`,
  `CountComments`, `VoteState`, `Votes`, `Karma`, `Comments`, `List`),
  mutations (`Post`, `Vote`), and a snapshot encoder/decoder
  (`Save`/`Load` over `dbFileStruct`).
* the App Engine datastore variant (`models.go`): `SubmitPost`,
  `SubmitVote`, `GetPost`, `UpdateRank`, `NumberOfVotes`, `HasVotedOn`
  over keyed entities.

Modelling conventions:

* `time.Time` values are modelled as `Int` nanoseconds since the Unix
  epoch; `time.Time.Unix()` is floor division by `10^9`
  (`unixSeconds`) and `time.Unix(sec, 0)` multiplies back
  (`fromUnixSeconds`).  `time.Now()` and the uuid generator are
  nondeterministic environment inputs, so the operations that call them
  take the produced value (`now`, the fresh `id`) as an explicit
  parameter.
* `float64` rank values are modelled as `Rat`; every arithmetic
  operation the code performs on ranks (square, cube, subtract,
  compare) is exact at the magnitudes involved.
* Go `int`/`int64` are modelled as `Int` (the counts involved are
  bounded by collection sizes, far from overflow).
* `image.Image` is an interface field that the store only ever carries
  around (`nil` in every caller); it is modelled by a `Bool` recording
  whether an image is attached.
* Go maps with commutative aggregation are modelled as association
  lists with in-place update (`upsert`); the sum of the values does not
  depend on the (unspecified) Go map iteration order.
* The file-system side of `Save`/`Load` is out of scope; `Save` is the
  pure encoding of the store into the snapshot document
  (`dbFileStruct`) and `Load` the pure decoding of such a document,
  followed by `recomputeAll` exactly as in the source.
-/

/-- `models.Vote` (vote.go): a user's vote on a post. -/
structure Vote where
  PostID : String
  UserID : String
  Upvote : Bool
  Timestamp : Int
  deriving Repr, DecidableEq

/-- `models.Post` (post.go): a post; `TopicID` is the parent post id
(empty for a top-level post), `Rank` the cached rank value. -/
structure Post where
  ID : String
  UserID : String
  TopicID : String
  Text : String
  Color : String
  Image : Bool
  Timestamp : Int
  Rank : Rat
  deriving Repr, DecidableEq

/-- `models.JSONDatabase`: the in-memory state (the `name`, `override`
and `debug` fields only configure file I/O and logging and carry no
store semantics). -/
structure JSONDatabase where
  posts : List Post
  votes : List Vote
  deriving Repr, DecidableEq

/-- Go map assignment `m[k] = v` on an association list: replaces the
value at an existing key in place, else appends the new binding. -/
def upsert : List (String × Int) → String → Int → List (String × Int)
  | [], k, v => [(k, v)]
  | (k', v') :: m, k, v =>
      if k' = k then (k, v) :: m else (k', v') :: upsert m k v

/-- Association-list lookup (Go map read). -/
def alookup : List (String × Int) → String → Option Int
  | [], _ => none
  | (k, v) :: m, u => if k = u then some v else alookup m u

/-- The `voted` map built by `JSONDatabase.CountVotes`: scan the vote
log in order; a vote on another post is skipped, otherwise the voter's
entry is set to `1` (up) or `-1` (down), later votes overwriting
earlier ones. -/
def tally (votes : List Vote) (id : String) : List (String × Int) :=
  votes.foldl
    (fun m vote =>
      if vote.PostID ≠ id then m
      else upsert m vote.UserID (if vote.Upvote then 1 else -1)) []

/-- Sum of the values of the `voted` map (the second loop of
`CountVotes`). -/
def sumValues (m : List (String × Int)) : Int :=
  m.foldl (fun count p => count + p.2) 0

/-- `JSONDatabase.CountVotes`: net vote count of a post. -/
def JSONDatabase.CountVotes (db : JSONDatabase) (id : String) : Int :=
  sumValues (tally db.votes id)

/-- Specification-side: a user's most recent vote (by insertion order)
on a post, if any. -/
def lastVote (votes : List Vote) (post user : String) : Option Bool :=
  (votes.reverse.find? fun v => v.PostID == post && v.UserID == user).map
    Vote.Upvote

/-- Specification-side: the distinct users having voted on a post. -/
def voters (votes : List Vote) (post : String) : Finset String :=
  ((votes.filter fun v => v.PostID == post).map Vote.UserID).toFinset

/-- Specification-side: distinct users whose most recent vote on the
post is up. -/
def upVoters (votes : List Vote) (post : String) : Finset String :=
  (voters votes post).filter fun u => lastVote votes post u = some true

/-- Specification-side: distinct users whose most recent vote on the
post is down. -/
def downVoters (votes : List Vote) (post : String) : Finset String :=
  (voters votes post).filter fun u => lastVote votes post u = some false

/-- Specification-side net vote count: distinct users whose standing
vote is up minus distinct users whose standing vote is down. -/
def netVotesSpec (votes : List Vote) (post : String) : Int :=
  (upVoters votes post).card - (downVoters votes post).card

/-- `JSONDatabase.Get`: linear scan for the first post with the given
id; a miss returns the zero-value `Post{}` (the zero `time.Time` is
modelled as timestamp `0`). -/
def JSONDatabase.Get (db : JSONDatabase) (id : String) : Post :=
  match db.posts.find? (fun post => post.ID == id) with
  | some post => post
  | none => { ID := "", UserID := "", TopicID := "", Text := "", Color := "",
              Image := false, Timestamp := 0, Rank := 0 }

/-- The rank value computed inside `JSONDatabase.computeRank`:
`elapsed² − votes³` with `elapsed = time.Since(post.Timestamp).Minutes()`
(nanoseconds divided by `60·10⁹`, not truncated) and `votes` the net
vote count of the post. -/
def rankFormula (db : JSONDatabase) (id : String) (now : Int) : Rat :=
  let post := db.Get id
  let votes : Rat := (db.CountVotes id : Int)
  let elapsed : Rat := ((now - post.Timestamp : Int) : Rat) / (60 * 1000000000)
  elapsed * elapsed - votes * votes * votes

/-- `JSONDatabase.computeRank`: computes `rankFormula` and then runs
`for _, post := range db.posts { if post.ID != id { continue };
post.Rank = rank }`.  The Go `range` variable `post` is a copy of the
slice element, so the assignment `post.Rank = rank` writes into that
per-iteration copy and the stored slice element is left unchanged; the
loop is therefore the element-wise identity on `db.posts`. -/
def JSONDatabase.computeRank (db : JSONDatabase) (id : String) (now : Int) :
    JSONDatabase :=
  let _rank := rankFormula db id now
  { db with posts := db.posts.map fun post => if post.ID ≠ id then post else post }

/-- `JSONDatabase.Karma`: sum of `CountVotes` over the user's posts. -/
def JSONDatabase.Karma (db : JSONDatabase) (user : String) : Int :=
  db.posts.foldl
    (fun count post =>
      if post.UserID ≠ user then count else count + db.CountVotes post.ID) 0

/-- `JSONDatabase.CountComments`: number of posts whose `TopicID` is
the given id. -/
def JSONDatabase.CountComments (db : JSONDatabase) (id : String) : Int :=
  db.posts.foldl
    (fun count post => if post.TopicID = id then count + 1 else count) 0

/-- `JSONDatabase.Votes`: the votes cast on the given post, in log
order. -/
def JSONDatabase.Votes (db : JSONDatabase) (post : String) : List Vote :=
  db.votes.filter fun vote => vote.PostID == post

/-- `models.VoteState`: the stance a user has taken on a post. -/
inductive VoteState where
  | VoteNone
  | VoteUp
  | VoteDown
  deriving Repr, DecidableEq

/-- `JSONDatabase.VoteState`: scan the vote log in order, remembering
the direction of the latest matching vote. -/
def JSONDatabase.VoteState (db : JSONDatabase) (id user : String) : VoteState :=
  db.votes.foldl
    (fun state vote =>
      if vote.PostID = id ∧ vote.UserID = user then
        (if vote.Upvote then .VoteUp else .VoteDown)
      else state) .VoteNone

/-- `JSONDatabase.Comments`: the posts whose `TopicID` equals the given
id, sorted by timestamp (`sort.Slice` with `Timestamp.Before`; modelled
by a merge sort for the same weak order). -/
def JSONDatabase.Comments (db : JSONDatabase) (id : String) : List Post :=
  (db.posts.filter fun post => post.TopicID == id).mergeSort
    fun a b => decide (a.Timestamp ≤ b.Timestamp)

/-- `JSONDatabase.List`: keep the posts that are not too old
(`time.Since(post.Timestamp) > maxAge` skips), not below `minRank`, and
not comments; sort ascending by rank (`sort.Slice`); return all of them
if fewer than `count`, else the first `count` (`posts[:count]`, which
panics — modelled as `none` — when `count` is negative and not greater
than the number of candidates). -/
def JSONDatabase.List (db : JSONDatabase) (count : Int) (maxAge : Int)
    (minRank : Rat) (now : Int) : Option (List Post) :=
  let posts := db.posts.filter fun post =>
    !decide (now - post.Timestamp > maxAge) && !decide (post.Rank < minRank)
      && (post.TopicID == "")
  let sorted := posts.mergeSort fun a b => decide (a.Rank ≤ b.Rank)
  if (sorted.length : Int) < count then some sorted
  else if count < 0 then none
  else some (sorted.take count.toNat)

/-- `time.Time.Unix()`: whole seconds since the epoch (floor). -/
def unixSeconds (t : Int) : Int := Int.fdiv t 1000000000

/-- `time.Unix(sec, 0)`: back to nanoseconds. -/
def fromUnixSeconds (s : Int) : Int := s * 1000000000

/-- `models.JSONPost`: the snapshot wire format of a post. -/
structure JSONPost where
  ID : String
  Topic : String
  User : String
  Text : String
  Votes : Int
  Color : String
  Timestamp : Int
  Comments : Int
  deriving Repr, DecidableEq

/-- `models.JSONVote`: the snapshot wire format of a vote. -/
structure JSONVote where
  User : String
  Post : String
  Upvote : Bool
  Timestamp : Int
  deriving Repr, DecidableEq

/-- `models.dbFileStruct`: the snapshot document. -/
structure dbFileStruct where
  Posts : List JSONPost
  Votes : List JSONVote
  deriving Repr, DecidableEq

/-- `JSONDatabase.ToJSONPost`: encode a post, recomputing its vote and
comment counts; the timestamp is truncated to whole seconds and the
`Image` and `Rank` fields are dropped. -/
def JSONDatabase.ToJSONPost (db : JSONDatabase) (post : Post) : JSONPost :=
  { ID := post.ID, User := post.UserID, Topic := post.TopicID,
    Color := post.Color, Text := post.Text,
    Timestamp := unixSeconds post.Timestamp,
    Votes := db.CountVotes post.ID, Comments := db.CountComments post.ID }

/-- `JSONPost.Convert`: decode a snapshot post; `Image` and `Rank` are
not in the wire format and come back as their zero values. -/
def JSONPost.Convert (post : JSONPost) : Post :=
  { ID := post.ID, UserID := post.User, TopicID := post.Topic,
    Text := post.Text, Color := post.Color, Image := false,
    Timestamp := fromUnixSeconds post.Timestamp, Rank := 0 }

/-- `JSONDatabase.ToJSONVote`: encode a vote (timestamp truncated to
whole seconds). -/
def JSONDatabase.ToJSONVote (_db : JSONDatabase) (vote : Vote) : JSONVote :=
  ⟨vote.UserID, vote.PostID, vote.Upvote, unixSeconds vote.Timestamp⟩

/-- `JSONVote.Convert`: decode a snapshot vote. -/
def JSONVote.Convert (vote : JSONVote) : Vote :=
  ⟨vote.Post, vote.User, vote.Upvote, fromUnixSeconds vote.Timestamp⟩

/-- `JSONDatabase.Save`: the snapshot document written to disk (the
file I/O itself is out of scope). -/
def JSONDatabase.Save (db : JSONDatabase) : dbFileStruct :=
  ⟨db.posts.map db.ToJSONPost, db.votes.map db.ToJSONVote⟩

/-- `JSONDatabase.recomputeAll`: recompute every post's rank (via the
ineffective `computeRank`, see there). -/
def JSONDatabase.recomputeAll (db : JSONDatabase) (now : Int) : JSONDatabase :=
  db.posts.foldl (fun acc post => acc.computeRank post.ID now) db

/-- `JSONDatabase.Load`, successful-decode path: replace the
collections by the decoded snapshot and recompute all ranks.  (The
file-absent/`override` branch and decode failures concern file I/O and
are out of scope.) -/
def JSONDatabase.Load (file : dbFileStruct) (now : Int) : JSONDatabase :=
  (JSONDatabase.mk (file.Posts.map JSONPost.Convert)
    (file.Votes.map JSONVote.Convert)).recomputeAll now

/-! ## The App Engine datastore variant (`models.go`)

The Google datastore client is external; it is modelled by its
documented behaviour: entities live under integer keys,
`datastore.Put` with an incomplete key stores the entity under a fresh
key and returns it (modelled by the `nextID` counter), `datastore.Get`
retrieves by key, and the queries used filter/count the stored
entities.  `models.go` reports failures as wrapped `error` strings with
distinct messages; they are modelled by the spec's error taxonomy:
"could not find post/parent" is `NotFound`, "Can not submit empty
post"/"vote need author" is `InvalidInput`, and "user already voted on
post" is `AlreadyVoted`. -/

/-- `models.Post` of `models.go`: `Parent = 0` means a top-level post. -/
structure DSPost where
  Author : String
  Parent : Int
  Text : String
  Color : String
  Date : Int
  Rank : Rat
  deriving Repr, DecidableEq

/-- `models.Vote` of `models.go`. -/
structure DSVote where
  Post : Int
  Author : String
  Upvote : Bool
  Date : Int
  deriving Repr, DecidableEq

/-- The datastore state: keyed posts and votes plus the fresh-key
counter. -/
structure Datastore where
  posts : List (Int × DSPost)
  votes : List (Int × DSVote)
  nextID : Int
  deriving Repr, DecidableEq

/-- The error taxonomy of the spec, standing for the distinct error
messages of `models.go` (see the section comment). -/
inductive ModelError where
  | NotFound
  | InvalidInput
  | AlreadyVoted
  deriving Repr, DecidableEq

/-- `datastore.Get` on the `Post` kind. -/
def Datastore.getPostEntity (ds : Datastore) (id : Int) : Option DSPost :=
  (ds.posts.find? fun e => e.1 == id).map Prod.snd

/-- `GetPost`: retrieve a post, wrapping a datastore miss as an error
("could not find post"). -/
def GetPost (ds : Datastore) (id : Int) : Except ModelError DSPost :=
  match ds.getPostEntity id with
  | some post => .ok post
  | none => .error .NotFound

/-- `HasVotedOn`: whether the user has a vote on the post
(query count > 0). -/
def HasVotedOn (ds : Datastore) (post : Int) (author : String) : Bool :=
  0 < (ds.votes.filter fun e => e.2.Author == author && e.2.Post == post).length

/-- `NumberOfVotes`: signed sum over all votes on the post (this
variant does not deduplicate voters; it instead forbids repeat votes in
`SubmitVote`). -/
def NumberOfVotes (ds : Datastore) (id : Int) : Int :=
  (ds.votes.filter fun e => e.2.Post == id).foldl
    (fun sum e => if e.2.Upvote then sum + 1 else sum - 1) 0

/-- `UpdateRank`: store `float64(NumberOfVotes)` as the post's rank. -/
def UpdateRank (ds : Datastore) (id : Int) : Except ModelError Datastore :=
  match ds.getPostEntity id with
  | none => .error .NotFound
  | some post =>
      .ok { ds with posts := ds.posts.map fun e =>
              if e.1 = id then (id, { post with Rank := (NumberOfVotes ds id : Rat) })
              else e }

/-- `SubmitVote`: post must exist, author must be non-empty after
trimming, the user must not have voted already; then the vote is stored
under a fresh key and the post's rank updated. -/
def SubmitVote (ds : Datastore) (author : String) (id : Int) (upvote : Bool)
    (now : Int) : Except ModelError (Int × Datastore) :=
  match GetPost ds id with
  | .error _ => .error .NotFound
  | .ok _ =>
      let author := author.trim
      if author.length < 1 then .error .InvalidInput
      else if HasVotedOn ds id author then .error .AlreadyVoted
      else
        let key := ds.nextID
        let ds' : Datastore :=
          { ds with votes := ds.votes ++ [(key, ⟨id, author, upvote, now⟩)],
                    nextID := ds.nextID + 1 }
        match UpdateRank ds' id with
        | .error e => .error e
        | .ok ds'' => .ok (key, ds'')

/-- `SubmitPost`: a non-zero parent must exist (checked first), then
author and text must be non-empty after trimming; then the post is
stored under a fresh key. -/
def SubmitPost (ds : Datastore) (author text color : String) (parent : Int)
    (now : Int) : Except ModelError (Int × Datastore) :=
  if parent ≠ 0 ∧ (ds.getPostEntity parent).isNone then .error .NotFound
  else
    let author := author.trim
    let text := text.trim
    if author.length < 1 ∨ text.length < 1 then .error .InvalidInput
    else
      .ok (ds.nextID,
        { ds with
            posts := ds.posts ++ [(ds.nextID, ⟨author, parent, text, color, now, 0⟩)],
            nextID := ds.nextID + 1 })

/-! ## Method-call view of the derived reads

Go methods take the receiver `*JSONDatabase` and may in principle
mutate it; each derived read below returns, next to its result, the
receiver as it stands after the call.  The bodies of `Get`,
`CountVotes`, `CountComments`, `VoteState`, `Votes`, `Karma`,
`Comments` and `List` contain no assignment to `db.posts` or
`db.votes` (they build fresh slices/maps and, in `List`/`Comments`,
sort those fresh slices), so the receiver after the call is the
unchanged `db`. -/

def JSONDatabase.GetS (db : JSONDatabase) (id : String) :=
  (db.Get id, db)

def JSONDatabase.CountVotesS (db : JSONDatabase) (id : String) :=
  (db.CountVotes id, db)

def JSONDatabase.CountCommentsS (db : JSONDatabase) (id : String) :=
  (db.CountComments id, db)

def JSONDatabase.VoteStateS (db : JSONDatabase) (id user : String) :=
  (db.VoteState id user, db)

def JSONDatabase.VotesS (db : JSONDatabase) (post : String) :=
  (db.Votes post, db)

def JSONDatabase.KarmaS (db : JSONDatabase) (user : String) :=
  (db.Karma user, db)

def JSONDatabase.CommentsS (db : JSONDatabase) (id : String) :=
  (db.Comments id, db)

def JSONDatabase.ListS (db : JSONDatabase) (count : Int) (maxAge : Int)
    (minRank : Rat) (now : Int) :=
  (db.List count maxAge minRank now, db)

/-- `JSONDatabase.Vote`: append the vote record, then recompute the
post's rank. -/
def JSONDatabase.Vote (db : JSONDatabase) (user post : String)
    (upvote : Bool) (now : Int) : JSONDatabase :=
  JSONDatabase.computeRank
    { db with votes := db.votes ++ [⟨post, user, upvote, now⟩] } post now

/-- `JSONDatabase.Post`: append a fresh post (no input validation of
any kind) and return its id.  `uuid.New()` and `time.Now()` are
environment inputs, passed as `id` and `now`. -/
def JSONDatabase.Post (db : JSONDatabase) (user text color topic : String)
    (img : Bool) (id : String) (now : Int) : String × JSONDatabase :=
  (id, { db with posts := db.posts ++ [⟨id, user, topic, text, color, img, now, 0⟩] })

theorem alookup_upsert (m : List (String × Int)) (k : String) (v : Int)
    (u : String) :
    alookup (upsert m k v) u = if u = k then some v else alookup m u := by
  induction m with
  | nil =>
      by_cases hu : u = k
      · subst hu; simp [upsert, alookup]
      · have hku : ¬ k = u := fun e => hu e.symm
        simp [upsert, alookup, hu, hku]
  | cons p m ih =>
      obtain ⟨k', v'⟩ := p
      by_cases hk : k' = k
      · subst hk
        by_cases hu : u = k'
        · subst hu; simp [upsert, alookup]
        · have hku : ¬ k' = u := fun e => hu e.symm
          simp [upsert, alookup, hu, hku]
      · by_cases hu : k' = u
        · subst hu
          have huk : ¬ k' = k := hk
          simp [upsert, alookup, hk, huk]
        · simp [upsert, alookup, hk, hu, ih]

theorem foldl_add_shift (l : List (String × Int)) (c : Int) :
    l.foldl (fun count p => count + p.2) c = c + sumValues l := by
  induction l generalizing c with
  | nil => simp [sumValues]
  | cons q l ih =>
      simp only [sumValues, List.foldl_cons]
      rw [ih, ih (0 + q.2)]
      ring

theorem sumValues_cons (p : String × Int) (m : List (String × Int)) :
    sumValues (p :: m) = p.2 + sumValues m := by
  simp only [sumValues, List.foldl_cons]
  rw [foldl_add_shift]
  ring_nf
  rw [sumValues]

theorem sumValues_upsert (m : List (String × Int)) (k : String) (v : Int) :
    sumValues (upsert m k v)
      = sumValues m + v - (alookup m k).getD 0 := by
  induction m with
  | nil => simp [upsert, alookup, sumValues]
  | cons p m ih =>
      obtain ⟨k', v'⟩ := p
      by_cases hk : k' = k
      · subst hk
        have e1 : upsert ((k', v') :: m) k' v = (k', v) :: m := by
          simp [upsert]
        have e2 : alookup ((k', v') :: m) k' = some v' := by
          simp [alookup]
        rw [e1, e2, sumValues_cons, sumValues_cons]
        simp only [Option.getD_some]
        ring
      · simp only [upsert, if_neg hk, alookup, if_neg hk]
        rw [sumValues_cons, sumValues_cons, ih]
        ring

theorem mem_upsert (m : List (String × Int)) (k : String) (v : Int)
    (p : String × Int) :
    p ∈ upsert m k v → p = (k, v) ∨ p ∈ m := by
  induction m with
  | nil => intro h; simp [upsert] at h; exact Or.inl h
  | cons q m ih =>
      obtain ⟨k', v'⟩ := q
      by_cases hk : k' = k
      · subst hk
        have e1 : upsert ((k', v') :: m) k' v = (k', v) :: m := by
          simp [upsert]
        rw [e1]
        intro h
        rcases List.mem_cons.mp h with h | h
        · exact Or.inl h
        · exact Or.inr (List.mem_cons_of_mem _ h)
      · have e1 : upsert ((k', v') :: m) k v = (k', v') :: upsert m k v := by
          simp [upsert, hk]
        rw [e1]
        intro h
        rcases List.mem_cons.mp h with h | h
        · exact Or.inr (by simp [h])
        · rcases ih h with h' | h'
          · exact Or.inl h'
          · exact Or.inr (List.mem_cons_of_mem _ h')

theorem keys_upsert_mem (m : List (String × Int)) (k : String) (v : Int)
    (u : String) :
    u ∈ (upsert m k v).map Prod.fst ↔ u = k ∨ u ∈ m.map Prod.fst := by
  induction m with
  | nil => simp [upsert]
  | cons q m ih =>
      obtain ⟨k', v'⟩ := q
      by_cases hk : k' = k
      · subst hk
        simp [upsert]
      · simp only [upsert, if_neg hk, List.map_cons, List.mem_cons, ih]
        tauto

theorem keys_upsert_nodup (m : List (String × Int)) (k : String) (v : Int)
    (h : (m.map Prod.fst).Nodup) : ((upsert m k v).map Prod.fst).Nodup := by
  induction m with
  | nil => simp [upsert]
  | cons q m ih =>
      obtain ⟨k', v'⟩ := q
      simp only [List.map_cons, List.nodup_cons] at h
      by_cases hk : k' = k
      · subst hk
        simpa [upsert] using h
      · simp only [upsert, if_neg hk, List.map_cons, List.nodup_cons]
        refine ⟨?_, ih h.2⟩
        rw [keys_upsert_mem]
        rintro (h' | h')
        · exact hk h'
        · exact h.1 h'

theorem alookup_eq_none (m : List (String × Int)) (u : String) :
    alookup m u = none ↔ u ∉ m.map Prod.fst := by
  induction m with
  | nil => simp [alookup]
  | cons q m ih =>
      obtain ⟨k', v'⟩ := q
      by_cases hk : k' = u
      · subst hk; simp [alookup]
      · have : ¬ u = k' := fun e => hk e.symm
        simp [alookup, hk, this, ih]

theorem alookup_of_mem (m : List (String × Int))
    (h : (m.map Prod.fst).Nodup) (p : String × Int) (hp : p ∈ m) :
    alookup m p.1 = some p.2 := by
  induction m with
  | nil => cases hp
  | cons q m ih =>
      obtain ⟨k', v'⟩ := q
      simp only [List.map_cons, List.nodup_cons] at h
      rcases List.mem_cons.mp hp with hq | hq
      · subst hq; simp [alookup]
      · have hne : ¬ k' = p.1 := by
          intro e
          exact h.1 (e ▸ List.mem_map_of_mem Prod.fst hq)
        simp only [alookup, if_neg hne]
        exact ih h.2 hq

theorem tally_append (vs : List Vote) (v : Vote) (id : String) :
    tally (vs ++ [v]) id =
      if v.PostID = id then
        upsert (tally vs id) v.UserID (if v.Upvote then 1 else -1)
      else tally vs id := by
  simp only [tally, List.foldl_append, List.foldl_cons, List.foldl_nil]
  by_cases h : v.PostID = id
  · simp [h]
  · simp [h]

theorem lastVote_append (vs : List Vote) (v : Vote) (post user : String) :
    lastVote (vs ++ [v]) post user =
      if v.PostID = post ∧ v.UserID = user then some v.Upvote
      else lastVote vs post user := by
  simp only [lastVote, List.reverse_append, List.reverse_cons,
    List.reverse_nil, List.nil_append, List.singleton_append,
    List.find?_cons]
  by_cases h : v.PostID = post ∧ v.UserID = user
  · have : (v.PostID == post && v.UserID == user) = true := by
      simp [h.1, h.2]
    simp [this, h]
  · have : (v.PostID == post && v.UserID == user) = false := by
      rw [Bool.and_eq_false_iff]
      by_cases h1 : v.PostID = post
      · exact Or.inr (by simp; exact fun h2 => h (⟨h1, h2⟩))
      · exact Or.inl (by simp [h1])
    simp [this, h]

theorem alookup_tally (vs : List Vote) (id user : String) :
    alookup (tally vs id) user
      = (lastVote vs id user).map fun b => if b then (1 : Int) else -1 := by
  induction vs using List.reverseRecOn with
  | nil => simp [tally, lastVote, alookup]
  | append_singleton vs v ih =>
      rw [tally_append, lastVote_append]
      by_cases hp : v.PostID = id
      · by_cases hu : v.UserID = user
        · subst hu
          simp [hp, alookup_upsert]
        · have hne : ¬ user = v.UserID := fun e => hu e.symm
          have hcond : ¬ (v.PostID = id ∧ v.UserID = user) :=
            fun hh => hu hh.2
          simp only [if_pos hp, alookup_upsert, if_neg hne, if_neg hcond]
          exact ih
      · have hcond : ¬ (v.PostID = id ∧ v.UserID = user) :=
          fun hh => hp hh.1
        simp only [if_neg hp, if_neg hcond]
        exact ih

theorem tally_keys_nodup (vs : List Vote) (id : String) :
    ((tally vs id).map Prod.fst).Nodup := by
  induction vs using List.reverseRecOn with
  | nil => simp [tally]
  | append_singleton vs v ih =>
      rw [tally_append]
      by_cases hp : v.PostID = id
      · simp only [if_pos hp]
        exact keys_upsert_nodup _ _ _ ih
      · simpa [if_neg hp] using ih

theorem tally_values (vs : List Vote) (id : String) (p : String × Int)
    (hp : p ∈ tally vs id) : p.2 = 1 ∨ p.2 = -1 := by
  induction vs using List.reverseRecOn with
  | nil => simp [tally] at hp
  | append_singleton vs v ih =>
      rw [tally_append] at hp
      by_cases hcond : v.PostID = id
      · rw [if_pos hcond] at hp
        rcases mem_upsert _ _ _ _ hp with h | h
        · rw [h]
          by_cases hb : v.Upvote <;> simp [hb]
        · exact ih h
      · rw [if_neg hcond] at hp
        exact ih hp

theorem sumValues_eq_countP (m : List (String × Int))
    (h : ∀ p ∈ m, p.2 = 1 ∨ p.2 = -1) :
    sumValues m = ((m.countP fun p => decide (p.2 = 1)) : Int)
      - ((m.countP fun p => decide (p.2 = -1)) : Int) := by
  induction m with
  | nil => simp [sumValues]
  | cons p m ih =>
      rw [sumValues_cons]
      have hm := fun q hq => h q (List.mem_cons_of_mem p hq)
      rw [ih hm]
      rcases h p (List.mem_cons_self p m) with hp | hp
      · simp [List.countP_cons, hp]
        ring
      · simp [List.countP_cons, hp]
        ring

theorem countP_value (m : List (String × Int))
    (h : (m.map Prod.fst).Nodup) (v : Int) :
    (m.countP fun p => decide (p.2 = v))
      = (m.map Prod.fst).countP fun u => decide (alookup m u = some v) := by
  rw [List.countP_map]
  apply List.countP_congr
  intro p hp
  have hl := alookup_of_mem m h p hp
  simp [Function.comp, hl]

theorem mem_keys_tally (vs : List Vote) (id u : String) :
    u ∈ (tally vs id).map Prod.fst ↔ lastVote vs id u ≠ none := by
  have h1 := alookup_eq_none (tally vs id) u
  rw [alookup_tally, Option.map_eq_none'] at h1
  constructor
  · intro hmem hnone
    exact (h1.mp hnone) hmem
  · intro hne
    by_contra hmem
    exact hne (h1.mpr hmem)

theorem lastVote_isSome_iff (vs : List Vote) (post u : String) :
    lastVote vs post u ≠ none
      ↔ ∃ v ∈ vs, v.PostID = post ∧ v.UserID = u := by
  have h1 : lastVote vs post u ≠ none
      ↔ (vs.reverse.find? fun w => w.PostID == post && w.UserID == u).isSome := by
    rw [lastVote]
    cases vs.reverse.find? fun w => w.PostID == post && w.UserID == u <;> simp
  rw [h1, List.find?_isSome]
  constructor
  · rintro ⟨v, hv, hcond⟩
    simp only [Bool.and_eq_true, beq_iff_eq] at hcond
    exact ⟨v, List.mem_reverse.mp hv, hcond⟩
  · rintro ⟨v, hv, h2, h3⟩
    exact ⟨v, List.mem_reverse.mpr hv, by simp [h2, h3]⟩

theorem mem_voters (vs : List Vote) (post u : String) :
    u ∈ voters vs post ↔ ∃ v ∈ vs, v.PostID = post ∧ v.UserID = u := by
  simp only [voters, List.mem_toFinset, List.mem_map, List.mem_filter,
    beq_iff_eq]
  constructor
  · rintro ⟨v, ⟨hv, hpost⟩, huser⟩
    exact ⟨v, hv, hpost, huser⟩
  · rintro ⟨v, hv, hpost, huser⟩
    exact ⟨v, ⟨hv, hpost⟩, huser⟩

theorem keys_tally_toFinset (vs : List Vote) (id : String) :
    ((tally vs id).map Prod.fst).toFinset = voters vs id := by
  ext u
  rw [List.mem_toFinset, mem_keys_tally, lastVote_isSome_iff, mem_voters]

theorem card_filter_nodup (l : List String) (hl : l.Nodup)
    (p : String → Prop) [DecidablePred p] :
    (l.toFinset.filter p).card = l.countP fun u => decide (p u) := by
  have h1 : l.toFinset.filter p
      = (l.filter fun u => decide (p u)).toFinset := by
    rw [List.toFinset_filter]
    apply Finset.filter_congr
    intro x _
    simp
  rw [h1, List.toFinset_card_of_nodup (hl.filter _),
    List.countP_eq_length_filter]

theorem card_upVoters (vs : List Vote) (id : String) :
    ((upVoters vs id).card : Int)
      = ((tally vs id).map Prod.fst).countP
          (fun u => decide (lastVote vs id u = some true)) := by
  rw [upVoters, ← keys_tally_toFinset vs id,
    card_filter_nodup _ (tally_keys_nodup vs id)]

theorem card_downVoters (vs : List Vote) (id : String) :
    ((downVoters vs id).card : Int)
      = ((tally vs id).map Prod.fst).countP
          (fun u => decide (lastVote vs id u = some false)) := by
  rw [downVoters, ← keys_tally_toFinset vs id,
    card_filter_nodup _ (tally_keys_nodup vs id)]

theorem tally_countP_up (vs : List Vote) (id : String) :
    (((tally vs id).map Prod.fst).countP
        fun u => decide (alookup (tally vs id) u = some 1))
      = ((tally vs id).map Prod.fst).countP
          fun u => decide (lastVote vs id u = some true) := by
  apply List.countP_congr
  intro u _
  rw [alookup_tally]
  cases hlv : lastVote vs id u with
  | none => simp
  | some b => cases b <;> simp

theorem tally_countP_down (vs : List Vote) (id : String) :
    (((tally vs id).map Prod.fst).countP
        fun u => decide (alookup (tally vs id) u = some (-1)))
      = ((tally vs id).map Prod.fst).countP
          fun u => decide (lastVote vs id u = some false) := by
  apply List.countP_congr
  intro u _
  rw [alookup_tally]
  cases hlv : lastVote vs id u with
  | none => simp
  | some b => cases b <;> simp

theorem countVotes_eq_netVotesSpec (vs : List Vote) (id : String) :
    sumValues (tally vs id) = netVotesSpec vs id := by
  rw [netVotesSpec]
  rw [sumValues_eq_countP _ (tally_values vs id)]
  rw [countP_value _ (tally_keys_nodup vs id) 1,
    countP_value _ (tally_keys_nodup vs id) (-1)]
  rw [tally_countP_up, tally_countP_down]
  rw [card_upVoters, card_downVoters]

/-- C1: `CountVotes` returns the number of distinct users whose most
recent vote on the post is up minus the number of distinct users whose
most recent vote is down; a repeat vote in the same direction leaves
the tally unchanged, and a repeat vote in the opposite direction moves
it by exactly 2 (down by 2 if the standing vote was up, up by 2 if it
was down). -/
theorem countVotes_correct (db : JSONDatabase) (post : String) :
    db.CountVotes post = netVotesSpec db.votes post
    ∧ (∀ (user : String) (b : Bool) (now : Int),
        lastVote db.votes post user = some b →
          (db.Vote user post b now).CountVotes post = db.CountVotes post
          ∧ (db.Vote user post (!b) now).CountVotes post
              = db.CountVotes post + (if b then -2 else 2)) := by
  constructor
  · exact countVotes_eq_netVotesSpec db.votes post
  · intro user b now hlast
    have hvotes : ∀ (up : Bool),
        (db.Vote user post up now).votes
          = db.votes ++ [⟨post, user, up, now⟩] := fun _ => rfl
    have hcv : ∀ (up : Bool),
        (db.Vote user post up now).CountVotes post
          = db.CountVotes post + (if up then 1 else -1)
            - (if b then 1 else -1) := by
      intro up
      show sumValues (tally (db.Vote user post up now).votes post) = _
      rw [hvotes up, tally_append,
        if_pos (show (Vote.mk post user up now).PostID = post from rfl)]
      rw [sumValues_upsert, alookup_tally, hlast]
      simp [JSONDatabase.CountVotes]
    constructor
    · rw [hcv b]
      cases b <;> simp
    · rw [hcv (!b)]
      cases b <;> simp <;> ring

/-- Witness for C1 at a concrete store: one standing upvote by `"u"`
on `"p"`; voting up again keeps the tally, voting down moves it by
−2. -/
theorem countVotes_correct_witness :
    ((JSONDatabase.mk [] [⟨"p", "u", true, 0⟩]).Vote "u" "p" true 1).CountVotes "p"
        = (JSONDatabase.mk [] [⟨"p", "u", true, 0⟩]).CountVotes "p"
    ∧ ((JSONDatabase.mk [] [⟨"p", "u", true, 0⟩]).Vote "u" "p" (!true) 1).CountVotes "p"
        = (JSONDatabase.mk [] [⟨"p", "u", true, 0⟩]).CountVotes "p"
            + (if true then -2 else 2) :=
  (countVotes_correct (JSONDatabase.mk [] [⟨"p", "u", true, 0⟩]) "p").2
    "u" true 1 (by decide)

/-- C2 (refuting the claimed behaviour): `Vote` never changes any
stored post — in particular no stored rank — because `computeRank`
assigns the computed rank to the `range` copy of the post.  At the
concrete store below the stored rank of `"p1"` is still `0` after an
upvote, while the specified value `elapsed² − net³ = 0² − 1³` is
`−1`. -/
theorem vote_rank_unchanged :
    (∀ (db : JSONDatabase) (user post : String) (up : Bool) (now : Int),
        (db.Vote user post up now).posts = db.posts)
    ∧ (((JSONDatabase.mk [⟨"p1", "alice", "", "hi", "", false, 0, 0⟩] []).Vote
          "bob" "p1" true 0).Get "p1").Rank = 0
    ∧ rankFormula
        ((JSONDatabase.mk [⟨"p1", "alice", "", "hi", "", false, 0, 0⟩] []).Vote
          "bob" "p1" true 0) "p1" 0 = -1 := by
  refine ⟨?_, ?_, ?_⟩
  · intro db user post up now
    show (JSONDatabase.computeRank _ post now).posts = db.posts
    simp [JSONDatabase.computeRank]
  · decide
  · norm_num [rankFormula, JSONDatabase.Vote, JSONDatabase.computeRank,
      JSONDatabase.Get, JSONDatabase.CountVotes, tally, upsert, sumValues,
      List.find?]

theorem take_cases {α : Type} (sorted : List α) (count : Int) (l : List α)
    (h : (if (sorted.length : Int) < count then some sorted
          else if count < 0 then none
          else some (sorted.take count.toNat)) = some l) :
    l.Sublist sorted ∧ (l.length : Int) ≤ count := by
  by_cases h1 : (sorted.length : Int) < count
  · rw [if_pos h1] at h
    obtain rfl : sorted = l := by simpa using h
    exact ⟨List.Sublist.refl _, le_of_lt h1⟩
  · rw [if_neg h1] at h
    by_cases h2 : count < 0
    · rw [if_pos h2] at h
      simp at h
    · rw [if_neg h2] at h
      obtain rfl : sorted.take count.toNat = l := by simpa using h
      refine ⟨List.take_sublist _ _, ?_⟩
      have hlen : (sorted.take count.toNat).length ≤ count.toNat := by
        rw [List.length_take]
        exact min_le_left _ _
      calc ((sorted.take count.toNat).length : Int)
          ≤ (count.toNat : Int) := by exact_mod_cast hlen
        _ = count := Int.toNat_of_nonneg (not_lt.mp h2)

/-- C3: every post returned by `List` is no older than `maxAge`, is
not a comment, has rank at least `minRank`; at most `count` posts are
returned and they are in non-decreasing rank order. -/
theorem list_feed_spec (db : JSONDatabase) (count maxAge : Int)
    (minRank : Rat) (now : Int) (l : List Post)
    (h : db.List count maxAge minRank now = some l) :
    (∀ p ∈ l, now - p.Timestamp ≤ maxAge)
    ∧ (∀ p ∈ l, p.TopicID = "")
    ∧ (l.length : Int) ≤ count
    ∧ l.Pairwise (fun a b => a.Rank ≤ b.Rank)
    ∧ (∀ p ∈ l, minRank ≤ p.Rank) := by
  simp only [JSONDatabase.List] at h
  obtain ⟨hsub, hlen⟩ := take_cases _ count l h
  have hmem : ∀ p ∈ l, now - p.Timestamp ≤ maxAge ∧ minRank ≤ p.Rank
      ∧ p.TopicID = "" := by
    intro p hp
    have hp' := List.mem_mergeSort.mp (hsub.subset hp)
    rw [List.mem_filter] at hp'
    obtain ⟨-, hc⟩ := hp'
    simp only [Bool.and_eq_true, Bool.not_eq_true', decide_eq_false_iff_not,
      beq_iff_eq, not_lt] at hc
    exact ⟨hc.1.1, hc.1.2, hc.2⟩
  have htrans : ∀ (a b c : Post), (decide (a.Rank ≤ b.Rank))
      → (decide (b.Rank ≤ c.Rank)) → (decide (a.Rank ≤ c.Rank)) := by
    intro a b c h1 h2
    simp only [decide_eq_true_eq] at h1 h2 ⊢
    exact le_trans h1 h2
  have htotal : ∀ (a b : Post),
      (decide (a.Rank ≤ b.Rank) || decide (b.Rank ≤ a.Rank)) := by
    intro a b
    simpa using le_total a.Rank b.Rank
  have hsorted := (List.sorted_mergeSort htrans htotal
    (db.posts.filter fun post =>
      !decide (now - post.Timestamp > maxAge) && !decide (post.Rank < minRank)
        && (post.TopicID == ""))).sublist hsub
  refine ⟨fun p hp => (hmem p hp).1, fun p hp => (hmem p hp).2.2, hlen,
    ?_, fun p hp => (hmem p hp).2.1⟩
  exact hsorted.imp fun hab => by simpa using hab

/-- Witness for C3 at a concrete store (one fresh top-level post,
`count = 30`, `maxAge = 100`, `minRank = -5`, `now = 0`): the length
bound and the rank ordering of the returned list. -/
theorem list_feed_spec_witness :
    (([(⟨"p1", "alice", "", "hi", "", false, 0, 0⟩ : Post)].length : Int)) ≤ 30
    ∧ [(⟨"p1", "alice", "", "hi", "", false, 0, 0⟩ : Post)].Pairwise
        (fun a b => a.Rank ≤ b.Rank) :=
  have h := list_feed_spec
    (JSONDatabase.mk [⟨"p1", "alice", "", "hi", "", false, 0, 0⟩] [])
    30 100 (-5) 0 [⟨"p1", "alice", "", "hi", "", false, 0, 0⟩]
    (by norm_num [JSONDatabase.List, List.mergeSort_singleton, List.filter])
  ⟨h.2.2.1, h.2.2.2.1⟩

theorem string_length_eq_zero_iff (s : String) : s.length = 0 ↔ s = "" := by
  constructor
  · intro h
    cases s with
    | mk data =>
        cases data with
        | nil => rfl
        | cons c cs => simp [String.length] at h
  · intro h
    subst h
    rfl

/-- C4 counterexample: with a blank author and a dangling parent,
`SubmitPost` reports the parent error (`NotFound`) rather than
`InvalidInput`; and the JSON store's `Post` never fails — it appends a
post even with an empty author. -/
theorem submit_post_counterexample :
    SubmitPost ⟨[], [], 1⟩ " " "hello" "blue" 5 0 = .error .NotFound
    ∧ (Except.error ModelError.NotFound
        ≠ (Except.error ModelError.InvalidInput : Except ModelError (Int × Datastore)))
    ∧ (JSONDatabase.Post ⟨[], []⟩ "" "x" "c" "" false "id1" 0).2.posts
        = [⟨"id1", "", "", "x", "c", false, 0, 0⟩] := by
  refine ⟨rfl, ?_, rfl⟩
  intro h
  injection h with h'
  exact ModelError.noConfusion h'

/-- C4 (amended): in the datastore variant, a supplied but dangling
parent fails with `NotFound` — this check runs before input
validation — otherwise an author or text that is empty after trimming
fails with `InvalidInput`, and otherwise the post is appended under a
fresh key; the JSON store's `Post` variant performs no validation and
always appends. -/
theorem submit_post_characterization :
    (∀ (ds : Datastore) (author text color : String) (parent now : Int),
        SubmitPost ds author text color parent now =
          if parent ≠ 0 ∧ (ds.getPostEntity parent).isNone then
            .error .NotFound
          else if author.trim = "" ∨ text.trim = "" then
            .error .InvalidInput
          else
            .ok (ds.nextID,
              { ds with
                  posts := ds.posts
                    ++ [(ds.nextID, ⟨author.trim, parent, text.trim, color, now, 0⟩)],
                  nextID := ds.nextID + 1 }))
    ∧ (∀ (db : JSONDatabase) (user text color topic id : String)
          (img : Bool) (now : Int),
        (db.Post user text color topic img id now).2.posts
          = db.posts ++ [⟨id, user, topic, text, color, img, now, 0⟩]) := by
  constructor
  · intro ds author text color parent now
    simp only [SubmitPost]
    by_cases h1 : parent ≠ 0 ∧ (ds.getPostEntity parent).isNone
    · rw [if_pos h1, if_pos h1]
    · rw [if_neg h1, if_neg h1]
      have hiff : (author.trim.length < 1 ∨ text.trim.length < 1)
          ↔ (author.trim = "" ∨ text.trim = "") := by
        rw [Nat.lt_one_iff, Nat.lt_one_iff, string_length_eq_zero_iff,
          string_length_eq_zero_iff]
      rw [if_congr hiff rfl rfl]
  · intro db user text color topic id img now
    rfl

/-- C5 counterexample: the JSON store's `Vote` checks nothing — on an
empty store (so post `"nope"` does not exist) it still appends the
vote record, changing the store instead of failing with `NotFound`. -/
theorem cast_vote_counterexample :
    (JSONDatabase.mk [] []).posts = []
    ∧ ((JSONDatabase.mk [] []).Vote "u" "nope" true 3).votes
        = [⟨"nope", "u", true, 3⟩] :=
  ⟨rfl, rfl⟩

/-- C5 (amended): in the datastore variant, `SubmitVote` on a missing
post fails with `NotFound` before anything is stored; the JSON store's
`Vote` variant performs no existence check and appends the vote record
unconditionally. -/
theorem cast_vote_amended :
    (∀ (ds : Datastore) (author : String) (id : Int) (up : Bool) (now : Int),
        ds.getPostEntity id = none →
          SubmitVote ds author id up now = .error .NotFound)
    ∧ (∀ (db : JSONDatabase) (user post : String) (up : Bool) (now : Int),
        (db.Vote user post up now).votes
          = db.votes ++ [⟨post, user, up, now⟩]) := by
  constructor
  · intro ds author id up now hnone
    simp only [SubmitVote, GetPost, hnone]
  · intro db user post up now
    rfl

/-- Witness for C5's amended claim: on an empty datastore, voting on
the missing post `7` fails with `NotFound`. -/
theorem cast_vote_amended_witness :
    SubmitVote ⟨[], [], 1⟩ "u" 7 true 0 = .error .NotFound :=
  cast_vote_amended.1 ⟨[], [], 1⟩ "u" 7 true 0 rfl

theorem karma_foldl (db : JSONDatabase) (user : String) (l : List Post)
    (c : Int) :
    l.foldl (fun count post =>
        if post.UserID ≠ user then count
        else count + db.CountVotes post.ID) c
      = c + ((l.filter fun p => p.UserID == user).map
              fun p => db.CountVotes p.ID).sum := by
  induction l generalizing c with
  | nil => simp
  | cons p l ih =>
      by_cases h : p.UserID = user
      · have hne : ¬ p.UserID ≠ user := not_not_intro h
        rw [List.foldl_cons, if_neg hne, ih]
        simp [List.filter_cons, h]
        ring
      · rw [List.foldl_cons, if_pos h, ih]
        simp [List.filter_cons, h]

/-- C6: `Karma` is the sum of the specified net vote counts over
exactly the posts authored by the user — no condition on `TopicID`, so
comments authored by the user are included — recomputed from the
current collections. -/
theorem karma_spec (db : JSONDatabase) (user : String) :
    db.Karma user
      = ((db.posts.filter fun p => p.UserID == user).map
          fun p => netVotesSpec db.votes p.ID).sum := by
  have hcv : ∀ (i : String), db.CountVotes i = netVotesSpec db.votes i := by
    intro i
    rw [JSONDatabase.CountVotes]
    exact countVotes_eq_netVotesSpec db.votes i
  rw [JSONDatabase.Karma, karma_foldl]
  simp [hcv]

/-- C7: `Comments` returns exactly the posts whose `TopicID` is the
given id (a permutation of that filter of the post collection — no age
or rank filtering), in non-decreasing `Timestamp` order. -/
theorem comments_spec (db : JSONDatabase) (id : String) :
    (db.Comments id).Perm (db.posts.filter fun post => post.TopicID == id)
    ∧ (db.Comments id).Pairwise fun a b => a.Timestamp ≤ b.Timestamp := by
  have htrans : ∀ (a b c : Post), (decide (a.Timestamp ≤ b.Timestamp))
      → (decide (b.Timestamp ≤ c.Timestamp))
      → (decide (a.Timestamp ≤ c.Timestamp)) := by
    intro a b c h1 h2
    simp only [decide_eq_true_eq] at h1 h2 ⊢
    exact le_trans h1 h2
  have htotal : ∀ (a b : Post),
      (decide (a.Timestamp ≤ b.Timestamp) || decide (b.Timestamp ≤ a.Timestamp)) := by
    intro a b
    simpa using le_total a.Timestamp b.Timestamp
  constructor
  · exact List.mergeSort_perm _ _
  · have h := List.sorted_mergeSort htrans htotal
      (db.posts.filter fun post => post.TopicID == id)
    exact h.imp fun hab => by simpa using hab

theorem computeRank_id (db : JSONDatabase) (id : String) (now : Int) :
    db.computeRank id now = db := by
  cases db with
  | mk posts votes => simp [JSONDatabase.computeRank]

theorem recomputeAll_id (db : JSONDatabase) (now : Int) :
    db.recomputeAll now = db := by
  rw [JSONDatabase.recomputeAll]
  have key : ∀ (l : List Post) (d : JSONDatabase),
      l.foldl (fun acc post => acc.computeRank post.ID now) d = d := by
    intro l
    induction l with
    | nil => intro d; rfl
    | cons p l ih =>
        intro d
        rw [List.foldl_cons, computeRank_id]
        exact ih d
  exact key db.posts db

theorem convert_toJSONPost (db : JSONDatabase) (p : Post)
    (hrank : p.Rank = 0) (himg : p.Image = false)
    (hts : p.Timestamp % 1000000000 = 0) :
    (db.ToJSONPost p).Convert = p := by
  obtain ⟨k, hk⟩ := Int.dvd_of_emod_eq_zero hts
  cases p with
  | mk pid puser ptopic ptext pcolor pimg pts prank =>
      obtain rfl : prank = 0 := hrank
      obtain rfl : pimg = false := himg
      have hk' : pts = 1000000000 * k := hk
      have hts' : fromUnixSeconds (unixSeconds pts) = pts := by
        rw [fromUnixSeconds, unixSeconds, hk',
          Int.mul_fdiv_cancel_left k (by norm_num)]
        ring
      simp [JSONDatabase.ToJSONPost, JSONPost.Convert, hts']

theorem tally_map_retime (vs : List Vote) (id : String) :
    tally (vs.map fun v => ⟨v.PostID, v.UserID, v.Upvote,
        fromUnixSeconds (unixSeconds v.Timestamp)⟩) id
      = tally vs id := by
  rw [tally, tally, List.foldl_map]

theorem load_save_state (db : JSONDatabase) (now : Int)
    (hrank : ∀ p ∈ db.posts, p.Rank = 0)
    (himg : ∀ p ∈ db.posts, p.Image = false)
    (hts : ∀ p ∈ db.posts, p.Timestamp % 1000000000 = 0) :
    (JSONDatabase.Load db.Save now).posts = db.posts
    ∧ (JSONDatabase.Load db.Save now).votes
        = db.votes.map fun v => ⟨v.PostID, v.UserID, v.Upvote,
            fromUnixSeconds (unixSeconds v.Timestamp)⟩ := by
  rw [JSONDatabase.Load, recomputeAll_id]
  constructor
  · show (db.posts.map db.ToJSONPost).map JSONPost.Convert = db.posts
    rw [List.map_map]
    have h : ∀ p ∈ db.posts, (JSONPost.Convert ∘ db.ToJSONPost) p = p :=
      fun p hp => convert_toJSONPost db p (hrank p hp) (himg p hp) (hts p hp)
    calc db.posts.map (JSONPost.Convert ∘ db.ToJSONPost)
        = db.posts.map id := List.map_congr_left h
      _ = db.posts := List.map_id db.posts
  · show (db.votes.map db.ToJSONVote).map JSONVote.Convert = _
    rw [List.map_map]
    rfl

/-- C8 (amended): for a store whose posts all carry rank `0` (as every
store reachable through the API does, `computeRank` never storing a
rank), no image, and whole-second creation timestamps, a save/load
round trip preserves every `List`, `Comments` and `Karma` query.  The
snapshot stores timestamps in whole seconds, so sub-second creation
times are truncated by the round trip and can change `List` results
(see the counterexample); vote timestamps are also truncated, but no
query reads them. -/
theorem save_load_roundtrip (db : JSONDatabase) (now : Int)
    (hrank : ∀ p ∈ db.posts, p.Rank = 0)
    (himg : ∀ p ∈ db.posts, p.Image = false)
    (hts : ∀ p ∈ db.posts, p.Timestamp % 1000000000 = 0) :
    (∀ (count maxAge : Int) (minRank : Rat) (lnow : Int),
        (JSONDatabase.Load db.Save now).List count maxAge minRank lnow
          = db.List count maxAge minRank lnow)
    ∧ (∀ id, (JSONDatabase.Load db.Save now).Comments id = db.Comments id)
    ∧ (∀ user, (JSONDatabase.Load db.Save now).Karma user = db.Karma user) := by
  obtain ⟨hposts, hvotes⟩ := load_save_state db now hrank himg hts
  have hcv : ∀ (i : String),
      (JSONDatabase.Load db.Save now).CountVotes i = db.CountVotes i := by
    intro i
    rw [JSONDatabase.CountVotes, JSONDatabase.CountVotes, hvotes,
      tally_map_retime]
  refine ⟨?_, ?_, ?_⟩
  · intro count maxAge minRank lnow
    simp only [JSONDatabase.List, hposts]
  · intro id
    simp only [JSONDatabase.Comments, hposts]
  · intro user
    simp only [JSONDatabase.Karma, hposts, hcv]

/-- C8 counterexample: a post created at `0.5s` (timestamp
`5·10⁸ ns`), queried with `maxAge = 0.6s` at `now = 1s`: before the
round trip the post is `0.5s` old and listed; the snapshot truncates
its creation time to `0s`, so after the round trip it appears `1s` old
and is filtered out — the same `List` query returns a different
result. -/
theorem roundtrip_counterexample :
    (JSONDatabase.mk [⟨"p1", "a", "", "t", "c", false, 500000000, 0⟩] []).List
        30 600000000 (-5) 1000000000
      ≠ (JSONDatabase.Load
          (JSONDatabase.mk [⟨"p1", "a", "", "t", "c", false, 500000000, 0⟩] []).Save 0).List
          30 600000000 (-5) 1000000000 := by
  have hf : Int.fdiv 500000000 1000000000 = 0 := by decide
  norm_num [JSONDatabase.List, JSONDatabase.Load, JSONDatabase.Save,
    JSONDatabase.recomputeAll, JSONDatabase.computeRank,
    JSONDatabase.ToJSONPost, JSONDatabase.ToJSONVote, JSONPost.Convert,
    unixSeconds, fromUnixSeconds, JSONDatabase.CountVotes,
    JSONDatabase.CountComments, tally, sumValues, hf,
    List.mergeSort_singleton, List.filter, rankFormula, JSONDatabase.Get]

/-- Witness for C8's amended claim at a concrete store (whole-second
timestamp, rank 0, no image): the karma of the author is unchanged by
a save/load round trip. -/
theorem save_load_roundtrip_witness :
    (JSONDatabase.Load
        (JSONDatabase.mk [⟨"p", "a", "", "t", "c", false, 2000000000, 0⟩]
          [⟨"p", "u", true, 500⟩]).Save 7).Karma "a"
      = (JSONDatabase.mk [⟨"p", "a", "", "t", "c", false, 2000000000, 0⟩]
          [⟨"p", "u", true, 500⟩]).Karma "a" :=
  (save_load_roundtrip
    (JSONDatabase.mk [⟨"p", "a", "", "t", "c", false, 2000000000, 0⟩]
      [⟨"p", "u", true, 500⟩]) 7
    (by decide) (by decide) (by decide)).2.2 "a"

/-- C9: when no stored post has the requested id, `Get` returns the
zero-value post — every string field empty, in particular an empty
`ID` — instead of signalling an error; its return type has no error
channel, so a miss is observable only through that empty `ID`. -/
theorem get_missing (db : JSONDatabase) (id : String)
    (h : ∀ p ∈ db.posts, p.ID ≠ id) :
    db.Get id = ⟨"", "", "", "", "", false, 0, 0⟩ := by
  rw [JSONDatabase.Get]
  have hnone : db.posts.find? (fun post => post.ID == id) = none := by
    rw [List.find?_eq_none]
    intro p hp
    simpa using h p hp
  rw [hnone]

/-- Witness for C9: a lookup in the empty store. -/
theorem get_missing_witness :
    (JSONDatabase.mk [] []).Get "x" = ⟨"", "", "", "", "", false, 0, 0⟩ :=
  get_missing (JSONDatabase.mk [] []) "x" (by simp)

/-- C10: every derived read leaves the store unchanged (the receiver
after the method call is the original store), and repeating the same
read on that post-read state returns the same result. -/
theorem reads_pure (db : JSONDatabase) (id user post : String)
    (count maxAge : Int) (minRank : Rat) (now : Int) :
    ((db.GetS id).2 = db ∧ ((db.GetS id).2.GetS id).1 = (db.GetS id).1)
    ∧ ((db.CountVotesS id).2 = db
        ∧ ((db.CountVotesS id).2.CountVotesS id).1 = (db.CountVotesS id).1)
    ∧ ((db.CountCommentsS id).2 = db
        ∧ ((db.CountCommentsS id).2.CountCommentsS id).1
            = (db.CountCommentsS id).1)
    ∧ ((db.VoteStateS id user).2 = db
        ∧ ((db.VoteStateS id user).2.VoteStateS id user).1
            = (db.VoteStateS id user).1)
    ∧ ((db.VotesS post).2 = db
        ∧ ((db.VotesS post).2.VotesS post).1 = (db.VotesS post).1)
    ∧ ((db.KarmaS user).2 = db
        ∧ ((db.KarmaS user).2.KarmaS user).1 = (db.KarmaS user).1)
    ∧ ((db.CommentsS id).2 = db
        ∧ ((db.CommentsS id).2.CommentsS id).1 = (db.CommentsS id).1)
    ∧ ((db.ListS count maxAge minRank now).2 = db
        ∧ ((db.ListS count maxAge minRank now).2.ListS count maxAge minRank now).1
            = (db.ListS count maxAge minRank now).1) :=
  ⟨⟨rfl, rfl⟩, ⟨rfl, rfl⟩, ⟨rfl, rfl⟩, ⟨rfl, rfl⟩, ⟨rfl, rfl⟩, ⟨rfl, rfl⟩,
    ⟨rfl, rfl⟩, rfl, rfl⟩
